import Mathlib

/- Formal model of the core calculation engine of `profit_calculator.py`
   (breakeven, target-profit, weekly projection generation, and the
   first-positive-cumulative-profit scan).

   Numbers are modelled with rationals; Python's `None` becomes `Option`;
   a computation that would raise an uncaught exception is modelled as the
   value `none` of an `Option` result type.  Python's `round(x, d)` is
   modelled by `roundTo d` (round half up at `d` decimal digits); no
   property proved here depends on the behaviour at exact rounding ties. -/

namespace ProfitCalc

/- Result of an order-count computation: Python returns either an `int`
   (from `math.ceil` or the literal `0`) or the float sentinel
   `float('inf')`. -/
inductive OrdersResult : Type where
  | infinite : OrdersResult
  | finite : ℤ → OrdersResult
  deriving DecidableEq

/- Body of `calculate_breakeven` once all three inputs passed the `None`
   checks; `p - v` is the `contribution_margin` local of the source. -/
def breakeven_core (f p v : ℚ) : Option OrdersResult × Option ℚ :=
  if p ≤ 0 ∨ v < 0 ∨ f < 0 then (none, none)
  else if v ≥ p then (none, some (p - v))
  else if p - v = 0 then (some OrdersResult.infinite, some (p - v))
  else if f = 0 then (some (OrdersResult.finite 0), some (p - v))
  else (some (OrdersResult.finite ⌈f / (p - v)⌉), some (p - v))

/- Model of `calculate_breakeven(total_fixed_costs, price_per_order,
   variable_cost_per_order_calculated)`: returns the pair
   (breakeven orders, contribution margin), each possibly `None`. -/
def calculate_breakeven :
    Option ℚ → Option ℚ → Option ℚ → Option OrdersResult × Option ℚ
  | some f, some p, some v => breakeven_core f p v
  | _, _, _ => (none, none)

/- Body of `calculate_orders_for_profit` once all four inputs passed the
   `None` checks (the `target_profit <= 0` test shares the source's first
   `if` with the `None` test; with all inputs present it reduces to this). -/
def orders_for_profit_core (f p v t : ℚ) : Option OrdersResult :=
  if t ≤ 0 then none
  else if p ≤ 0 ∨ v < 0 ∨ f < 0 then none
  else if v ≥ p then none
  else if p - v = 0 then some OrdersResult.infinite
  else some (OrdersResult.finite ⌈(f + t) / (p - v)⌉)

/- Model of `calculate_orders_for_profit(total_fixed_costs, price_per_order,
   variable_cost_per_order_calculated, target_profit)`. -/
def calculate_orders_for_profit :
    Option ℚ → Option ℚ → Option ℚ → Option ℚ → Option OrdersResult
  | some f, some p, some v, some t => orders_for_profit_core f p v t
  | _, _, _, _ => none

lemma calculate_breakeven_some (f p v : ℚ) :
    calculate_breakeven (some f) (some p) (some v) = breakeven_core f p v := rfl

lemma calculate_orders_for_profit_some (f p v t : ℚ) :
    calculate_orders_for_profit (some f) (some p) (some v) (some t) =
      orders_for_profit_core f p v t := rfl

/-- C1: for fixedCosts ≥ 0, price > 0 and 0 < variableCost < price,
`calculate_breakeven` returns contribution margin `price - variableCost` and
orders `ceil(fixedCosts / margin)`; for fixedCosts > 0 this orders value
satisfies `orders * margin ≥ fixedCosts > (orders - 1) * margin`; and the
scenario fixedCosts = 12000, price = 450, variableCost = 390 yields margin 60
and 200 orders (fixedCosts = 0 yields `ceil(0/margin) = 0` orders). -/
theorem c1_breakeven_ceiling :
    (∀ f p v : ℚ, 0 ≤ f → 0 < p → 0 < v → v < p →
      calculate_breakeven (some f) (some p) (some v) =
        (some (OrdersResult.finite ⌈f / (p - v)⌉), some (p - v)) ∧
      (0 < f → f ≤ (⌈f / (p - v)⌉ : ℚ) * (p - v) ∧
        ((⌈f / (p - v)⌉ : ℚ) - 1) * (p - v) < f)) ∧
    calculate_breakeven (some 12000) (some 450) (some 390) =
      (some (OrdersResult.finite 200), some 60) := by
  have main : ∀ f p v : ℚ, 0 ≤ f → 0 < p → 0 < v → v < p →
      calculate_breakeven (some f) (some p) (some v) =
        (some (OrdersResult.finite ⌈f / (p - v)⌉), some (p - v)) := by
    intro f p v hf hp hv hvp
    have hm : (0 : ℚ) < p - v := by linarith
    rw [calculate_breakeven_some]
    unfold breakeven_core
    rw [if_neg (by push_neg; exact ⟨hp, le_of_lt hv, hf⟩),
        if_neg (not_le.mpr hvp), if_neg (ne_of_gt hm)]
    by_cases hf0 : f = 0
    · subst hf0
      rw [if_pos rfl]
      norm_num
    · rw [if_neg hf0]
  constructor
  · intro f p v hf hp hv hvp
    have hm : (0 : ℚ) < p - v := by linarith
    refine ⟨main f p v hf hp hv hvp, ?_⟩
    intro hfpos
    constructor
    · have h1 : f / (p - v) ≤ (⌈f / (p - v)⌉ : ℚ) := Int.le_ceil _
      calc f = f / (p - v) * (p - v) := by field_simp
        _ ≤ (⌈f / (p - v)⌉ : ℚ) * (p - v) :=
            mul_le_mul_of_nonneg_right h1 (le_of_lt hm)
    · have h2 : ((⌈f / (p - v)⌉ : ℚ) - 1) < f / (p - v) := by
        have := Int.ceil_lt_add_one (f / (p - v))
        linarith
      calc ((⌈f / (p - v)⌉ : ℚ) - 1) * (p - v) < f / (p - v) * (p - v) :=
            mul_lt_mul_of_pos_right h2 hm
        _ = f := by field_simp
  · rw [main 12000 450 390 (by norm_num) (by norm_num) (by norm_num) (by norm_num)]
    norm_num

theorem c1_breakeven_ceiling_witness :
    (0 : ℚ) ≤ 12000 ∧ (0 : ℚ) < 450 ∧ (0 : ℚ) < 390 ∧ (390 : ℚ) < 450 ∧
    calculate_breakeven (some 12000) (some 450) (some 390) =
      (some (OrdersResult.finite ⌈(12000 : ℚ) / (450 - 390)⌉), some (450 - 390)) :=
  ⟨by decide, by decide, by decide, by decide,
    (c1_breakeven_ceiling.1 12000 450 390 (by decide) (by decide) (by decide) (by decide)).1⟩

/-- C5: for fixedCosts ≥ 0, price > 0, 0 ≤ variableCost < price and
targetProfit > 0, `calculate_orders_for_profit` returns
`ceil((fixedCosts + targetProfit) / (price - variableCost))`; the scenario
fixedCosts = 12000, price = 450, variableCost = 390, targetProfit = 1000
yields 217 orders. -/
theorem c5_orders_for_profit_ceiling :
    (∀ f p v t : ℚ, 0 ≤ f → 0 < p → 0 ≤ v → v < p → 0 < t →
      calculate_orders_for_profit (some f) (some p) (some v) (some t) =
        some (OrdersResult.finite ⌈(f + t) / (p - v)⌉)) ∧
    calculate_orders_for_profit (some 12000) (some 450) (some 390) (some 1000) =
      some (OrdersResult.finite 217) := by
  have main : ∀ f p v t : ℚ, 0 ≤ f → 0 < p → 0 ≤ v → v < p → 0 < t →
      calculate_orders_for_profit (some f) (some p) (some v) (some t) =
        some (OrdersResult.finite ⌈(f + t) / (p - v)⌉) := by
    intro f p v t hf hp hv hvp ht
    have hm : (0 : ℚ) < p - v := by linarith
    rw [calculate_orders_for_profit_some]
    unfold orders_for_profit_core
    rw [if_neg (not_le.mpr ht),
        if_neg (by push_neg; exact ⟨hp, hv, hf⟩),
        if_neg (not_le.mpr hvp), if_neg (ne_of_gt hm)]
  refine ⟨main, ?_⟩
  rw [main 12000 450 390 1000 (by norm_num) (by norm_num) (by norm_num)
      (by norm_num) (by norm_num)]
  have : (⌈((12000 : ℚ) + 1000) / (450 - 390)⌉ : ℤ) = 217 := by
    rw [show ((12000 : ℚ) + 1000) / (450 - 390) = 13000 / 60 by norm_num,
        Int.ceil_eq_iff]
    norm_num
  rw [this]

theorem c5_orders_for_profit_ceiling_witness :
    (0 : ℚ) ≤ 12000 ∧ (0 : ℚ) < 450 ∧ (0 : ℚ) ≤ 390 ∧ (390 : ℚ) < 450 ∧ (0 : ℚ) < 1000 ∧
    calculate_orders_for_profit (some 12000) (some 450) (some 390) (some 1000) =
      some (OrdersResult.finite ⌈((12000 : ℚ) + 1000) / (450 - 390)⌉) :=
  ⟨by decide, by decide, by decide, by decide, by decide,
    c5_orders_for_profit_ceiling.1 12000 450 390 1000
      (by decide) (by decide) (by decide) (by decide) (by decide)⟩

/-- C7: whenever an argument is missing (`none`), or price ≤ 0, or
variableCost < 0, or fixedCosts < 0, `calculate_breakeven` returns
`(none, none)` and `calculate_orders_for_profit` returns `none` (the
"undefined" outcome, no crash); `calculate_orders_for_profit` additionally
returns `none` whenever targetProfit is missing or ≤ 0. -/
theorem c7_undefined_on_bad_input (f p v t : Option ℚ) :
    ((f = none ∨ p = none ∨ v = none ∨
        (∃ x, p = some x ∧ x ≤ 0) ∨ (∃ x, v = some x ∧ x < 0) ∨
        (∃ x, f = some x ∧ x < 0)) →
      calculate_breakeven f p v = (none, none) ∧
      calculate_orders_for_profit f p v t = none) ∧
    ((t = none ∨ ∃ x, t = some x ∧ x ≤ 0) →
      calculate_orders_for_profit f p v t = none) := by
  constructor
  · intro hbad
    match f, p, v, t with
    | none, p, v, t =>
      exact ⟨rfl, rfl⟩
    | some f', none, v, t =>
      exact ⟨rfl, by cases v <;> cases t <;> rfl⟩
    | some f', some p', none, t =>
      exact ⟨rfl, by cases t <;> rfl⟩
    | some f', some p', some v', t =>
      have hsign : p' ≤ 0 ∨ v' < 0 ∨ f' < 0 := by
        rcases hbad with h | h | h | ⟨x, hx, hle⟩ | ⟨x, hx, hlt⟩ | ⟨x, hx, hlt⟩
        · exact absurd h (by simp)
        · exact absurd h (by simp)
        · exact absurd h (by simp)
        · exact Or.inl (by injection hx with hx'; rw [← hx'] at hle; exact hle)
        · exact Or.inr (Or.inl (by injection hx with hx'; rw [← hx'] at hlt; exact hlt))
        · exact Or.inr (Or.inr (by injection hx with hx'; rw [← hx'] at hlt; exact hlt))
      constructor
      · rw [calculate_breakeven_some]
        unfold breakeven_core
        rw [if_pos hsign]
      · match t with
        | none => rfl
        | some t' =>
          rw [calculate_orders_for_profit_some]
          unfold orders_for_profit_core
          by_cases ht : t' ≤ 0
          · rw [if_pos ht]
          · rw [if_neg ht, if_pos hsign]
  · intro hbad
    match t with
    | none => cases f <;> cases p <;> cases v <;> rfl
    | some t' =>
      have ht : t' ≤ 0 := by
        rcases hbad with h | ⟨x, hx, hle⟩
        · exact absurd h (by simp)
        · injection hx with hx'; rw [← hx'] at hle; exact hle
      match f, p, v with
      | none, p, v => cases p <;> cases v <;> rfl
      | some f', none, v => cases v <;> rfl
      | some f', some p', none => rfl
      | some f', some p', some v' =>
        rw [calculate_orders_for_profit_some]
        unfold orders_for_profit_core
        rw [if_pos ht]

theorem c7_undefined_on_bad_input_witness :
    ((some (-1 : ℚ) = (none : Option ℚ) ∨ some (450 : ℚ) = none ∨ some (390 : ℚ) = none ∨
        (∃ x, some (450 : ℚ) = some x ∧ x ≤ 0) ∨ (∃ x, some (390 : ℚ) = some x ∧ x < 0) ∨
        (∃ x, some (-1 : ℚ) = some x ∧ x < 0)) ∧
      calculate_breakeven (some (-1)) (some 450) (some 390) = (none, none) ∧
      calculate_orders_for_profit (some (-1)) (some 450) (some 390) (some 1000) = none) ∧
    ((some (0 : ℚ) = (none : Option ℚ) ∨ ∃ x, some (0 : ℚ) = some x ∧ x ≤ 0) ∧
      calculate_orders_for_profit (some 12000) (some 450) (some 390) (some 0) = none) :=
  ⟨⟨Or.inr (Or.inr (Or.inr (Or.inr (Or.inr ⟨-1, rfl, by decide⟩)))),
    (c7_undefined_on_bad_input (some (-1)) (some 450) (some 390) (some 1000)).1
      (Or.inr (Or.inr (Or.inr (Or.inr (Or.inr ⟨-1, rfl, by decide⟩)))))⟩,
   ⟨Or.inr ⟨0, rfl, by decide⟩,
    (c7_undefined_on_bad_input (some 12000) (some 450) (some 390) (some 0)).2
      (Or.inr ⟨0, rfl, by decide⟩)⟩⟩

/-- C10: for every possible input, neither `calculate_breakeven` nor
`calculate_orders_for_profit` ever returns the infinity sentinel: every
orders result is either `none` or a finite non-negative integer (the
`contribution_margin = 0` branches are unreachable because
`variableCost ≥ price` is rejected earlier). -/
theorem c10_never_infinite (f p v t : Option ℚ) :
    ((calculate_breakeven f p v).1 = none ∨
      ∃ n : ℤ, (calculate_breakeven f p v).1 = some (OrdersResult.finite n) ∧ 0 ≤ n) ∧
    (calculate_orders_for_profit f p v t = none ∨
      ∃ n : ℤ, calculate_orders_for_profit f p v t = some (OrdersResult.finite n) ∧ 0 ≤ n) := by
  constructor
  · match f, p, v with
    | none, p, v => exact Or.inl rfl
    | some f', none, v => exact Or.inl rfl
    | some f', some p', none => exact Or.inl rfl
    | some f', some p', some v' =>
      rw [calculate_breakeven_some]
      unfold breakeven_core
      by_cases hsign : p' ≤ 0 ∨ v' < 0 ∨ f' < 0
      · rw [if_pos hsign]; exact Or.inl rfl
      · rw [if_neg hsign]
        by_cases hvp : v' ≥ p'
        · rw [if_pos hvp]; exact Or.inl rfl
        · rw [if_neg hvp]
          push_neg at hsign hvp
          have hm : (0 : ℚ) < p' - v' := by linarith
          rw [if_neg (ne_of_gt hm)]
          by_cases hf0 : f' = 0
          · rw [if_pos hf0]; exact Or.inr ⟨0, rfl, le_refl 0⟩
          · rw [if_neg hf0]
            refine Or.inr ⟨⌈f' / (p' - v')⌉, rfl, ?_⟩
            exact Int.ceil_nonneg (div_nonneg hsign.2.2 (le_of_lt hm))
  · match f, p, v, t with
    | none, p, v, t => exact Or.inl rfl
    | some f', none, v, t => exact Or.inl (by cases v <;> cases t <;> rfl)
    | some f', some p', none, t => exact Or.inl (by cases t <;> rfl)
    | some f', some p', some v', none => exact Or.inl rfl
    | some f', some p', some v', some t' =>
      rw [calculate_orders_for_profit_some]
      unfold orders_for_profit_core
      by_cases ht : t' ≤ 0
      · rw [if_pos ht]; exact Or.inl rfl
      · rw [if_neg ht]
        by_cases hsign : p' ≤ 0 ∨ v' < 0 ∨ f' < 0
        · rw [if_pos hsign]; exact Or.inl rfl
        · rw [if_neg hsign]
          by_cases hvp : v' ≥ p'
          · rw [if_pos hvp]; exact Or.inl rfl
          · rw [if_neg hvp]
            push_neg at hsign hvp ht
            have hm : (0 : ℚ) < p' - v' := by linarith
            rw [if_neg (ne_of_gt hm)]
            refine Or.inr ⟨⌈(f' + t') / (p' - v')⌉, rfl, ?_⟩
            have hft : (0 : ℚ) ≤ f' + t' := by linarith [hsign.2.2]
            exact Int.ceil_nonneg (div_nonneg hft (le_of_lt hm))

/-- C3 as stated is false: with variableCost = price the code rejects the
input at the `variable_cost >= price` check and returns the undefined
sentinel, never the infinity sentinel.  Concretely, at fixedCosts = 12000,
price = 450, variableCost = 450 (and target 1000), `calculate_breakeven`
returns `(none, some 0)` and `calculate_orders_for_profit` returns `none`,
and neither result is the infinity sentinel. -/
theorem c3_counterexample :
    calculate_breakeven (some 12000) (some 450) (some 450) = (none, some 0) ∧
    (calculate_breakeven (some 12000) (some 450) (some 450)).1 ≠
      some OrdersResult.infinite ∧
    calculate_orders_for_profit (some 12000) (some 450) (some 450) (some 1000) = none ∧
    calculate_orders_for_profit (some 12000) (some 450) (some 450) (some 1000) ≠
      some OrdersResult.infinite := by
  have h1 : calculate_breakeven (some 12000) (some 450) (some 450) = (none, some 0) := by
    rw [calculate_breakeven_some]
    unfold breakeven_core
    rw [if_neg (by norm_num), if_pos (le_refl (450 : ℚ))]
    norm_num
  have h2 : calculate_orders_for_profit (some 12000) (some 450) (some 450) (some 1000) =
      none := by
    rw [calculate_orders_for_profit_some]
    unfold orders_for_profit_core
    rw [if_neg (by norm_num), if_neg (by norm_num), if_pos (le_refl (450 : ℚ))]
  refine ⟨h1, by rw [h1]; simp, h2, by rw [h2]; simp⟩

/-- C3 amended: for valid fixed costs (≥ 0) and price > 0 with
variableCost = price (contribution margin exactly zero), both functions
report the *undefined* sentinel — `calculate_breakeven` returns orders
`none` together with the zero margin, and `calculate_orders_for_profit`
returns `none` for every positive target; the "infinite" sentinel is not
produced. -/
theorem c3_margin_zero_undefined (f p v : ℚ) (hf : 0 ≤ f) (hp : 0 < p) (hvp : v = p) :
    calculate_breakeven (some f) (some p) (some v) = (none, some 0) ∧
    ∀ t : ℚ, 0 < t →
      calculate_orders_for_profit (some f) (some p) (some v) (some t) = none := by
  subst hvp
  constructor
  · rw [calculate_breakeven_some]
    unfold breakeven_core
    rw [if_neg (by push_neg; exact ⟨hp, le_of_lt hp, hf⟩), if_pos (le_refl v)]
    norm_num
  · intro t ht
    rw [calculate_orders_for_profit_some]
    unfold orders_for_profit_core
    rw [if_neg (not_le.mpr ht),
        if_neg (by push_neg; exact ⟨hp, le_of_lt hp, hf⟩), if_pos (le_refl v)]

theorem c3_margin_zero_undefined_witness :
    (0 : ℚ) ≤ 12000 ∧ (0 : ℚ) < 450 ∧ (450 : ℚ) = 450 ∧ (0 : ℚ) < 1000 ∧
    calculate_breakeven (some 12000) (some 450) (some 450) = (none, some 0) ∧
    calculate_orders_for_profit (some 12000) (some 450) (some 450) (some 1000) = none :=
  ⟨by decide, by decide, rfl, by decide,
    (c3_margin_zero_undefined 12000 450 450 (by decide) (by decide) rfl).1,
    (c3_margin_zero_undefined 12000 450 450 (by decide) (by decide) rfl).2 1000 (by decide)⟩

/- One row of the weekly projection DataFrame built in
   `generate_projections`; field names follow the dictionary keys of the
   source (`Month`, `Global_Week`, `Projected_Orders_Weekly`, ...). -/
structure ProjectionRow where
  month : ℕ
  global_week : ℕ
  projected_orders_weekly : ℚ
  revenue_weekly : ℚ
  variable_costs_weekly : ℚ
  fixed_costs_weekly : ℚ
  profit_weekly : ℚ
  cumulative_profit : ℚ
  deriving DecidableEq

/- Model of Python's `round(x, d)` on the exact rational value (round half
   up at `d` decimal digits; Python rounds ties to even on binary floats,
   but no property below depends on the behaviour at exact ties). -/
def roundTo (d : ℕ) (x : ℚ) : ℚ := (⌊x * 10 ^ d + 1 / 2⌋ : ℚ) / 10 ^ d

/- `weeks_per_month_avg = 52 / 12` of the source. -/
def weeksPerMonthAvg : ℚ := 52 / 12

/- `fixed_costs_weekly = total_fixed_costs_monthly / weeks_per_month_avg if
   weeks_per_month_avg > 0 else 0`. -/
def fixedCostsWeeklyOf (total_fixed_costs_monthly : ℚ) : ℚ :=
  if 0 < weeksPerMonthAvg then total_fixed_costs_monthly / weeksPerMonthAvg else 0

/- `profit = revenue - total_variable_costs - fixed_costs_weekly` for one
   simulated week with `simulated_orders` orders. -/
def weekProfitOf (simulated_orders p v fcw : ℚ) : ℚ :=
  simulated_orders * p - simulated_orders * v - fcw

/- The dictionary appended to `projection_data` for one simulated week:
   `revenue = simulated_orders * price`, `total_variable_costs =
   simulated_orders * variable_cost`, profit as above, and every stored
   field rounded (currency to 2 decimals, orders to 1); `cum` is the value
   of `cumulative_profit_tracker` after adding this week's profit. -/
def mkWeekRow (month global_week : ℕ) (simulated_orders p v fcw cum : ℚ) :
    ProjectionRow where
  month := month
  global_week := global_week
  projected_orders_weekly := roundTo 1 simulated_orders
  revenue_weekly := roundTo 2 (simulated_orders * p)
  variable_costs_weekly := roundTo 2 (simulated_orders * v)
  fixed_costs_weekly := roundTo 2 fcw
  profit_weekly := roundTo 2 (weekProfitOf simulated_orders p v fcw)
  cumulative_profit := roundTo 2 cum

/- The inner `for week_in_month_simulated in range(num_weeks_this_month)`
   loop: appends one row per week, threading the global week counter and
   the cumulative profit tracker; returns the rows together with the final
   tracker value. -/
def weekLoop (month : ℕ) (orders_per_week p v fcw : ℚ) :
    ℕ → ℕ → ℚ → List ProjectionRow × ℚ
  | 0, _, cum => ([], cum)
  | n + 1, gw, cum =>
    let cum2 := cum + weekProfitOf orders_per_week p v fcw
    let rest := weekLoop month orders_per_week p v fcw n (gw + 1) cum2
    (mkWeekRow month gw orders_per_week p v fcw cum2 :: rest.1, rest.2)

/- The outer `for month in range(1, num_months + 1)` loop, counting down
   the months still to simulate while carrying the 1-based month number,
   the running monthly order volume (multiplied by the growth factor at
   the top of every month after the first), the global week counter and
   the cumulative profit tracker.  `num_weeks_this_month = 4` and
   `orders_per_week = current_monthly_orders / 4` (the `if
   num_weeks_this_month > 0` guard of the source is trivially true). -/
def monthLoop (p v fcw growth : ℚ) :
    ℕ → ℕ → ℚ → ℕ → ℚ → List ProjectionRow
  | 0, _, _, _, _ => []
  | n + 1, month, cur, gw, cum =>
    let cur2 := if 1 < month then cur * (1 + growth / 100) else cur
    let wk := weekLoop month (cur2 / 4) p v fcw 4 gw cum
    wk.1 ++ monthLoop p v fcw growth n (month + 1) cur2 (gw + 4) wk.2

/- The whole loop body of `generate_projections` once its inputs are
   known to be present: months 1..m, `current_monthly_orders` starting at
   the initial volume, `global_week_counter = 1`,
   `cumulative_profit_tracker = 0.0`. -/
def projCore (f p v i : ℚ) (m : ℕ) (g : ℚ) : List ProjectionRow :=
  monthLoop p v (fixedCostsWeeklyOf f) g m 1 i 1 0

/- The guard condition of `generate_projections`: some required input is
   `None`, or the initial order volume is negative (the `< 0` comparison
   is never reached on a `None` volume thanks to Python's short-circuit
   `or`). -/
def projInputsBad (f p v i : Option ℚ) (m : Option ℕ) : Bool :=
  f.isNone || p.isNone || v.isNone || i.isNone || m.isNone ||
    (match i with
     | some x => decide (x < 0)
     | none => false)

/- Model of `generate_projections(...)`.  The result is `some rows` for a
   normal return (`some []` for the early `return pd.DataFrame()`), and
   `none` when the Python code would raise an uncaught exception: inside
   the guard's carve-out `initial == 0 and fixed == 0`, execution falls
   through with a `None` input still present and crashes on
   `range(1, None + 1)` or on `0.0 * None` in the first simulated week
   (the week arithmetic is only reached when at least one month is
   simulated, so `months = 0` still returns an empty frame). -/
def generate_projections (f p v i : Option ℚ) (m : Option ℕ) (g : ℚ) :
    Option (List ProjectionRow) :=
  if projInputsBad f p v i m = true ∧ ¬(i = some 0 ∧ f = some 0) then some []
  else
    match f, i with
    | some f', some i' =>
      match m with
      | none => none
      | some m' =>
        if m' = 0 then some []
        else
          match p, v with
          | some p', some v' => some (projCore f' p' v' i' m' g)
          | _, _ => none
    | _, _ => none

/- Model of `find_time_to_positive_profit(projections_df)` (the rows of a
   generated frame always carry a `Cumulative_Profit` column, so the
   column-existence test of the source reduces to the emptiness test). -/
def find_time_to_positive_profit (rows : List ProjectionRow) :
    Option ℕ × Option ℕ × Option String :=
  if rows.isEmpty then (none, none, none)
  else
    match rows.find? (fun r => decide (0 ≤ r.cumulative_profit)) with
    | some r => (some r.global_week, some r.month, some "Reached")
    | none => (none, none, some "Not Reached")

/- Closed forms used to state the claims about `generate_projections`. -/

/- Order volume of 1-based month `m`: the initial volume compounded once
   per month after the first. -/
def monthVolume (i g : ℚ) (m : ℕ) : ℚ := i * (1 + g / 100) ^ (m - 1)

/- Orders simulated in global week `k` (0-based): the volume of the month
   containing the week, spread over 4 weeks. -/
def weekOrders (i g : ℚ) (k : ℕ) : ℚ := monthVolume i g (k / 4 + 1) / 4

/- Exact (pre-rounding) profit of global week `k` (0-based). -/
def weekProfit (f p v i g : ℚ) (k : ℕ) : ℚ :=
  weekProfitOf (weekOrders i g k) p v (fixedCostsWeeklyOf f)

/- Week profit of global offset `k` for a loop whose first simulated month
   is `m0`. -/
def wprofitFrom (i g p v fcw : ℚ) (m0 k : ℕ) : ℚ :=
  weekProfitOf (monthVolume i g (m0 + k / 4) / 4) p v fcw

lemma fixedCostsWeeklyOf_eq (f : ℚ) : fixedCostsWeeklyOf f = f / (52 / 12) := by
  unfold fixedCostsWeeklyOf weeksPerMonthAvg
  rw [if_pos (by norm_num)]

lemma monthVolume_succ (i g : ℚ) (m : ℕ) (hm : 1 ≤ m) :
    monthVolume i g m * (1 + g / 100) = monthVolume i g (m + 1) := by
  unfold monthVolume
  rw [show m + 1 - 1 = m - 1 + 1 by omega, pow_succ]
  ring

lemma roundTo_mono (d : ℕ) {x y : ℚ} (h : x ≤ y) : roundTo d x ≤ roundTo d y := by
  unfold roundTo
  have h10 : (0 : ℚ) < 10 ^ d := by positivity
  rw [div_le_div_iff_of_pos_right h10]
  exact_mod_cast Int.floor_le_floor
    (by nlinarith [mul_le_mul_of_nonneg_right h (le_of_lt h10)])

lemma roundTo_zero (d : ℕ) : roundTo d 0 = 0 := by
  unfold roundTo
  norm_num

lemma weekLoop_snd (month : ℕ) (opw p v fcw : ℚ) :
    ∀ (n gw : ℕ) (cum : ℚ),
      (weekLoop month opw p v fcw n gw cum).2 =
        cum + (n : ℚ) * weekProfitOf opw p v fcw := by
  intro n
  induction n with
  | zero => intro gw cum; simp [weekLoop]
  | succ n ih =>
    intro gw cum
    simp only [weekLoop, ih]
    push_cast
    ring

lemma weekLoop_fst (month : ℕ) (opw p v fcw : ℚ) :
    ∀ (n gw : ℕ) (cum : ℚ),
      (weekLoop month opw p v fcw n gw cum).1 =
        (List.range n).map (fun k =>
          mkWeekRow month (gw + k) opw p v fcw
            (cum + ((k : ℚ) + 1) * weekProfitOf opw p v fcw)) := by
  intro n
  induction n with
  | zero => intro gw cum; simp [weekLoop]
  | succ n ih =>
    intro gw cum
    rw [List.range_succ_eq_map]
    simp only [weekLoop, List.map_cons, List.map_map, ih]
    refine congrArg₂ List.cons ?_ ?_
    · have h1 : gw + 0 = gw := by omega
      have h2 : cum + ((0 : ℕ) + (1 : ℚ)) * weekProfitOf opw p v fcw =
          cum + weekProfitOf opw p v fcw := by push_cast; ring
      rw [h1]
      rw [show ((0 : ℕ) : ℚ) + 1 = (1 : ℚ) by push_cast; ring]
      ring_nf
    · apply List.map_congr_left
      intro a ha
      simp only [Function.comp]
      have h1 : gw + 1 + a = gw + Nat.succ a := by omega
      have h2 : cum + weekProfitOf opw p v fcw + ((a : ℚ) + 1) * weekProfitOf opw p v fcw =
          cum + ((Nat.succ a : ℚ) + 1) * weekProfitOf opw p v fcw := by
        push_cast
        ring
      rw [h1, h2]

lemma wprofitFrom_lt4 (i g p v fcw : ℚ) (m0 j : ℕ) (hj : j < 4) :
    wprofitFrom i g p v fcw m0 j =
      weekProfitOf (monthVolume i g m0 / 4) p v fcw := by
  unfold wprofitFrom
  rw [Nat.div_eq_of_lt hj, Nat.add_zero]

lemma wprofitFrom_shift (i g p v fcw : ℚ) (m0 j : ℕ) :
    wprofitFrom i g p v fcw m0 (4 + j) = wprofitFrom i g p v fcw (m0 + 1) j := by
  unfold wprofitFrom
  rw [Nat.add_comm 4 j, Nat.add_div_right j (by norm_num),
      show m0 + (j / 4 + 1) = m0 + 1 + j / 4 by omega]

lemma sum_wprofitFrom_four (i g p v fcw : ℚ) (m0 : ℕ) :
    ∑ j ∈ Finset.range 4, wprofitFrom i g p v fcw m0 j =
      4 * weekProfitOf (monthVolume i g m0 / 4) p v fcw := by
  rw [Finset.sum_congr rfl
      (fun j hj => wprofitFrom_lt4 i g p v fcw m0 j (Finset.mem_range.mp hj)),
      Finset.sum_const, Finset.card_range, nsmul_eq_mul]
  norm_num

/- Closed form of the month loop: starting from 1-based month `m0` with
   `n` months left, week counter `gw` and tracker `cum` — provided the
   order volume that the loop body is about to use equals
   `monthVolume i g m0` — the rows produced are exactly the rows of
   global offsets `0 ≤ k < 4 n`. -/
lemma monthLoop_eq (p v fcw g i : ℚ) :
    ∀ (n m0 : ℕ) (cur : ℚ) (gw : ℕ) (cum : ℚ),
      1 ≤ m0 →
      (if 1 < m0 then cur * (1 + g / 100) else cur) = monthVolume i g m0 →
      monthLoop p v fcw g n m0 cur gw cum =
        (List.range (4 * n)).map (fun k =>
          mkWeekRow (m0 + k / 4) (gw + k) (monthVolume i g (m0 + k / 4) / 4) p v fcw
            (cum + ∑ j ∈ Finset.range (k + 1), wprofitFrom i g p v fcw m0 j)) := by
  intro n
  induction n with
  | zero => intro m0 cur gw cum hm0 hcur; simp [monthLoop]
  | succ n ih =>
    intro m0 cur gw cum hm0 hcur
    simp only [monthLoop]
    rw [hcur, weekLoop_fst, weekLoop_snd]
    push_cast
    rw [show 4 * (n + 1) = 4 + 4 * n by ring, List.range_add, List.map_append,
        List.map_map]
    refine congrArg₂ (· ++ ·) ?_ ?_
    · apply List.map_congr_left
      intro a ha
      have ha4 : a < 4 := List.mem_range.mp ha
      have hdiv : a / 4 = 0 := Nat.div_eq_of_lt ha4
      have hsum : ∑ j ∈ Finset.range (a + 1), wprofitFrom i g p v fcw m0 j =
          ((a : ℚ) + 1) * weekProfitOf (monthVolume i g m0 / 4) p v fcw := by
        rw [Finset.sum_congr rfl (fun j hj => wprofitFrom_lt4 i g p v fcw m0 j
              (lt_of_lt_of_le (Finset.mem_range.mp hj) ha4)),
            Finset.sum_const, Finset.card_range, nsmul_eq_mul]
        push_cast
        ring
      rw [hsum, hdiv, Nat.add_zero]
    · have hnext : (if 1 < m0 + 1 then monthVolume i g m0 * (1 + g / 100)
          else monthVolume i g m0) = monthVolume i g (m0 + 1) := by
        rw [if_pos (by omega)]
        exact monthVolume_succ i g m0 hm0
      rw [ih (m0 + 1) (monthVolume i g m0) (gw + 4)
          (cum + (4 : ℚ) * weekProfitOf (monthVolume i g m0 / 4) p v fcw)
          (by omega) hnext]
      apply List.map_congr_left
      intro a ha
      simp only [Function.comp]
      have hidx : m0 + 1 + a / 4 = m0 + (4 + a) / 4 := by
        rw [Nat.add_comm 4 a, Nat.add_div_right a (by norm_num)]
        omega
      have hgw : gw + 4 + a = gw + (4 + a) := by omega
      have hsum : cum + (4 : ℚ) * weekProfitOf (monthVolume i g m0 / 4) p v fcw +
          ∑ j ∈ Finset.range (a + 1), wprofitFrom i g p v fcw (m0 + 1) j =
          cum + ∑ j ∈ Finset.range (4 + a + 1), wprofitFrom i g p v fcw m0 j := by
        conv_rhs => rw [show 4 + a + 1 = 4 + (a + 1) by omega, Finset.sum_range_add]
        rw [sum_wprofitFrom_four,
            Finset.sum_congr rfl
              (fun j _ => wprofitFrom_shift i g p v fcw m0 j)]
        ring
      rw [hidx, hgw, hsum]

lemma wprofitFrom_one (f p v i g : ℚ) (j : ℕ) :
    wprofitFrom i g p v (fixedCostsWeeklyOf f) 1 j = weekProfit f p v i g j := by
  unfold wprofitFrom weekProfit weekOrders
  rw [Nat.add_comm 1 (j / 4)]

/- Closed form of the full projection body at the initial state. -/
lemma projCore_eq (f p v i : ℚ) (m : ℕ) (g : ℚ) :
    projCore f p v i m g =
      (List.range (4 * m)).map (fun k =>
        mkWeekRow (k / 4 + 1) (k + 1) (weekOrders i g k) p v (fixedCostsWeeklyOf f)
          (∑ j ∈ Finset.range (k + 1), weekProfit f p v i g j)) := by
  unfold projCore
  rw [monthLoop_eq p v (fixedCostsWeeklyOf f) g i m 1 i 1 0 (le_refl 1)
      (by rw [if_neg (by omega)]; unfold monthVolume; norm_num)]
  apply List.map_congr_left
  intro a _
  rw [Finset.sum_congr rfl (fun j _ => wprofitFrom_one f p v i g j),
      Nat.add_comm 1 (a / 4), Nat.add_comm 1 a, zero_add]
  rfl

lemma projCore_length (f p v i : ℚ) (m : ℕ) (g : ℚ) :
    (projCore f p v i m g).length = 4 * m := by
  rw [projCore_eq]
  simp

lemma projCore_get (f p v i : ℚ) (m : ℕ) (g : ℚ) (k : ℕ)
    (hk : k < (projCore f p v i m g).length) :
    (projCore f p v i m g).get ⟨k, hk⟩ =
      mkWeekRow (k / 4 + 1) (k + 1) (weekOrders i g k) p v (fixedCostsWeeklyOf f)
        (∑ j ∈ Finset.range (k + 1), weekProfit f p v i g j) := by
  have hk4 : k < 4 * m := by
    rw [projCore_length] at hk
    exact hk
  have h1 : (projCore f p v i m g)[k]? =
      some (mkWeekRow (k / 4 + 1) (k + 1) (weekOrders i g k) p v
        (fixedCostsWeeklyOf f)
        (∑ j ∈ Finset.range (k + 1), weekProfit f p v i g j)) := by
    rw [projCore_eq, List.getElem?_map, List.getElem?_range hk4, Option.map_some']
  have h2 := List.getElem?_eq_getElem hk
  rw [h1] at h2
  rw [List.get_eq_getElem]
  exact (Option.some.inj h2).symm

lemma generate_projections_valid (f p v i : ℚ) (m : ℕ) (g : ℚ)
    (hi : 0 ≤ i) (hm : 1 ≤ m) :
    generate_projections (some f) (some p) (some v) (some i) (some m) g =
      some (projCore f p v i m g) := by
  unfold generate_projections
  have hbad : projInputsBad (some f) (some p) (some v) (some i) (some m) = false := by
    unfold projInputsBad
    simp [not_lt.mpr hi]
  rw [if_neg (by rw [hbad]; simp)]
  show (if m = 0 then some [] else some (projCore f p v i m g)) =
    some (projCore f p v i m g)
  rw [if_neg (by omega)]

/-- C2: for every valid input (all inputs present, initial monthly orders
≥ 0, months ≥ 1), `generate_projections` produces exactly 4 rows per month
(4 m rows in total) whose Global_Week values are the consecutive numbers
1..4m across month boundaries, and the row of 0-based global week `k` (in
month `k/4 + 1`) stores — rounded, currency to 2 decimals and orders to
1 — orders `monthVolume/4`, revenue `orders * price`, variable costs
`orders * variableCost`, weekly fixed costs `monthlyFixedCosts / (52/12)`,
profit `revenue - variableCosts - fixedCostsWeekly`, and as cumulative
profit the running sum of all weekly profits so far. -/
theorem c2_projection_rows (f p v i : ℚ) (m : ℕ) (g : ℚ) (hi : 0 ≤ i) (hm : 1 ≤ m) :
    ∃ rows, generate_projections (some f) (some p) (some v) (some i) (some m) g =
        some rows ∧
      rows.length = 4 * m ∧
      ∀ k (hk : k < rows.length),
        (rows.get ⟨k, hk⟩).month = k / 4 + 1 ∧
        (rows.get ⟨k, hk⟩).global_week = k + 1 ∧
        (rows.get ⟨k, hk⟩).projected_orders_weekly = roundTo 1 (weekOrders i g k) ∧
        (rows.get ⟨k, hk⟩).revenue_weekly = roundTo 2 (weekOrders i g k * p) ∧
        (rows.get ⟨k, hk⟩).variable_costs_weekly = roundTo 2 (weekOrders i g k * v) ∧
        (rows.get ⟨k, hk⟩).fixed_costs_weekly = roundTo 2 (f / (52 / 12)) ∧
        (rows.get ⟨k, hk⟩).profit_weekly =
          roundTo 2 (weekOrders i g k * p - weekOrders i g k * v - f / (52 / 12)) ∧
        (rows.get ⟨k, hk⟩).cumulative_profit =
          roundTo 2 (∑ j ∈ Finset.range (k + 1), weekProfit f p v i g j) := by
  refine ⟨projCore f p v i m g, generate_projections_valid f p v i m g hi hm,
    projCore_length f p v i m g, ?_⟩
  intro k hk
  rw [projCore_get f p v i m g k hk]
  unfold mkWeekRow weekProfitOf
  rw [fixedCostsWeeklyOf_eq]
  refine ⟨rfl, rfl, rfl, rfl, rfl, rfl, rfl, rfl⟩

theorem c2_projection_rows_witness :
    (0 : ℚ) ≤ 200 ∧ 1 ≤ 1 ∧
    (∃ rows,
      generate_projections (some 12000) (some 450) (some 390) (some 200) (some 1) 0 =
        some rows ∧
      rows.length = 4 * 1 ∧
      ∀ k (hk : k < rows.length),
        (rows.get ⟨k, hk⟩).month = k / 4 + 1 ∧
        (rows.get ⟨k, hk⟩).global_week = k + 1 ∧
        (rows.get ⟨k, hk⟩).projected_orders_weekly = roundTo 1 (weekOrders 200 0 k) ∧
        (rows.get ⟨k, hk⟩).revenue_weekly = roundTo 2 (weekOrders 200 0 k * 450) ∧
        (rows.get ⟨k, hk⟩).variable_costs_weekly = roundTo 2 (weekOrders 200 0 k * 390) ∧
        (rows.get ⟨k, hk⟩).fixed_costs_weekly = roundTo 2 (12000 / (52 / 12)) ∧
        (rows.get ⟨k, hk⟩).profit_weekly =
          roundTo 2 (weekOrders 200 0 k * 450 - weekOrders 200 0 k * 390 -
            12000 / (52 / 12)) ∧
        (rows.get ⟨k, hk⟩).cumulative_profit =
          roundTo 2 (∑ j ∈ Finset.range (k + 1), weekProfit 12000 450 390 200 0 j)) :=
  ⟨by decide, by decide, c2_projection_rows 12000 450 390 200 1 0 (by decide) (by decide)⟩

/-- C4: for every valid input, the orders stored in the row of 0-based
global week `k` are `initialOrders * (1 + growthRate/100) ^ (k/4) / 4`
(rounded to 1 decimal) — i.e. month `m`'s volume is the previous month's
volume compounded once by `(1 + growthRate/100)` — and when the starting
volume is 0 every row's orders are 0 in every month regardless of the
growth rate, while the cumulative profit tracker decreases each week by
exactly `fixedCostsWeekly` (the stored value is that exact running total
`-(k+1) * fixedCostsWeekly`, rounded to 2 decimals). -/
theorem c4_growth_compounds (f p v i : ℚ) (m : ℕ) (g : ℚ) (hi : 0 ≤ i) (hm : 1 ≤ m) :
    ∃ rows, generate_projections (some f) (some p) (some v) (some i) (some m) g =
        some rows ∧
      (∀ k (hk : k < rows.length),
        (rows.get ⟨k, hk⟩).projected_orders_weekly =
          roundTo 1 (i * (1 + g / 100) ^ (k / 4) / 4)) ∧
      (i = 0 → ∀ k (hk : k < rows.length),
        (rows.get ⟨k, hk⟩).projected_orders_weekly = 0 ∧
        (rows.get ⟨k, hk⟩).cumulative_profit =
          roundTo 2 (-(((k : ℚ) + 1) * (f / (52 / 12))))) := by
  have hwo : ∀ k : ℕ, weekOrders i g k = i * (1 + g / 100) ^ (k / 4) / 4 := by
    intro k
    unfold weekOrders monthVolume
    rw [Nat.add_sub_cancel]
  refine ⟨projCore f p v i m g, generate_projections_valid f p v i m g hi hm, ?_, ?_⟩
  · intro k hk
    rw [projCore_get f p v i m g k hk,
        show (mkWeekRow (k / 4 + 1) (k + 1) (weekOrders i g k) p v
          (fixedCostsWeeklyOf f)
          (∑ j ∈ Finset.range (k + 1), weekProfit f p v i g j)).projected_orders_weekly =
          roundTo 1 (weekOrders i g k) from rfl, hwo k]
  · intro hi0 k hk
    subst hi0
    have hwo0 : ∀ j : ℕ, weekOrders 0 g j = 0 := by
      intro j
      rw [hwo j]
      ring
    have hwp0 : ∀ j : ℕ, weekProfit f p v 0 g j = -(fixedCostsWeeklyOf f) := by
      intro j
      unfold weekProfit weekProfitOf
      rw [hwo0 j]
      ring
    rw [projCore_get f p v 0 m g k hk]
    constructor
    · rw [show (mkWeekRow (k / 4 + 1) (k + 1) (weekOrders 0 g k) p v
          (fixedCostsWeeklyOf f)
          (∑ j ∈ Finset.range (k + 1), weekProfit f p v 0 g j)).projected_orders_weekly =
          roundTo 1 (weekOrders 0 g k) from rfl, hwo0 k, roundTo_zero]
    · rw [show (mkWeekRow (k / 4 + 1) (k + 1) (weekOrders 0 g k) p v
          (fixedCostsWeeklyOf f)
          (∑ j ∈ Finset.range (k + 1), weekProfit f p v 0 g j)).cumulative_profit =
          roundTo 2 (∑ j ∈ Finset.range (k + 1), weekProfit f p v 0 g j) from rfl,
          Finset.sum_congr rfl (fun j _ => hwp0 j), Finset.sum_const,
          Finset.card_range, nsmul_eq_mul, fixedCostsWeeklyOf_eq]
      congr 1
      push_cast
      ring

theorem c4_growth_compounds_witness :
    (0 : ℚ) ≤ 0 ∧ 1 ≤ 3 ∧
    (∃ rows,
      generate_projections (some 12000) (some 450) (some 390) (some 0) (some 3) 5 =
        some rows ∧
      (∀ k (hk : k < rows.length),
        (rows.get ⟨k, hk⟩).projected_orders_weekly =
          roundTo 1 (0 * (1 + 5 / 100) ^ (k / 4) / 4)) ∧
      ((0 : ℚ) = 0 → ∀ k (hk : k < rows.length),
        (rows.get ⟨k, hk⟩).projected_orders_weekly = 0 ∧
        (rows.get ⟨k, hk⟩).cumulative_profit =
          roundTo 2 (-(((k : ℚ) + 1) * (12000 / (52 / 12)))))) :=
  ⟨by decide, by decide, c4_growth_compounds 12000 450 390 0 3 5 (by decide) (by decide)⟩

/-- C9: for every valid projection input whose exact weekly profit is
non-negative in every simulated week, the stored Cumulative_Profit values
of the generated rows are non-decreasing from each week to the next
(rounding to 2 decimals is monotone, so the rounded running totals
inherit the monotonicity of the exact tracker). -/
theorem c9_cumulative_monotone (f p v i : ℚ) (m : ℕ) (g : ℚ)
    (hi : 0 ≤ i) (hm : 1 ≤ m)
    (hpos : ∀ k, k < 4 * m → 0 ≤ weekProfit f p v i g k) :
    ∃ rows, generate_projections (some f) (some p) (some v) (some i) (some m) g =
        some rows ∧
      ∀ w (hw : w + 1 < rows.length),
        (rows.get ⟨w, Nat.lt_of_succ_lt hw⟩).cumulative_profit ≤
          (rows.get ⟨w + 1, hw⟩).cumulative_profit := by
  refine ⟨projCore f p v i m g, generate_projections_valid f p v i m g hi hm, ?_⟩
  intro w hw
  rw [projCore_get f p v i m g w (Nat.lt_of_succ_lt hw),
      projCore_get f p v i m g (w + 1) hw]
  show roundTo 2 (∑ j ∈ Finset.range (w + 1), weekProfit f p v i g j) ≤
    roundTo 2 (∑ j ∈ Finset.range (w + 1 + 1), weekProfit f p v i g j)
  apply roundTo_mono
  conv_rhs => rw [Finset.sum_range_succ]
  have hw4 : w + 1 < 4 * m := by
    rw [projCore_length] at hw
    exact hw
  linarith [hpos (w + 1) hw4]

theorem c9_cumulative_monotone_witness :
    (0 : ℚ) ≤ 0 ∧ 1 ≤ 1 ∧
    (∀ k, k < 4 * 1 → 0 ≤ weekProfit 0 450 390 0 0 k) ∧
    (∃ rows, generate_projections (some 0) (some 450) (some 390) (some 0) (some 1) 0 =
        some rows ∧
      ∀ w (hw : w + 1 < rows.length),
        (rows.get ⟨w, Nat.lt_of_succ_lt hw⟩).cumulative_profit ≤
          (rows.get ⟨w + 1, hw⟩).cumulative_profit) :=
  ⟨by decide, by decide,
    fun k _ => by
      simp [weekProfit, weekOrders, monthVolume, weekProfitOf, fixedCostsWeeklyOf],
    c9_cumulative_monotone 0 450 390 0 1 0 (by decide) (by decide)
      (fun k _ => by
        simp [weekProfit, weekOrders, monthVolume, weekProfitOf, fixedCostsWeeklyOf])⟩

/-- C6 is right about the intent but the code has a slip: the guard's
carve-out `not (initial == 0 and fixed == 0)` lets a call with a missing
required input fall through whenever the initial volume and the fixed
costs are both 0, and the loop body then raises an uncaught TypeError
(`0.0 * None`, or `range(1, None + 1)`) instead of returning an empty
frame — modelled here as the `none` result (first conjunct: missing price
crashes).  The remaining conjuncts record the behaviour the claim
correctly describes: a negative starting volume and a missing input
outside the carve-out produce the empty row sequence, and the
zero-volume/zero-fixed-costs input with everything present proceeds
normally, producing rows with zero revenue, profit and cumulative
profit. -/
theorem c6_crash_on_missing_input :
    generate_projections (some 0) none (some 390) (some 0) (some 1) 0 = none ∧
    generate_projections (some 0) (some 450) (some 390) (some (-5)) (some 12) 2 =
      some [] ∧
    generate_projections none (some 450) (some 390) (some 200) (some 12) 2 =
      some [] ∧
    (generate_projections (some 0) (some 450) (some 390) (some 0) (some 1) 0 =
      some (projCore 0 450 390 0 1 0) ∧
     ∀ k (hk : k < (projCore 0 450 390 0 1 0).length),
       ((projCore 0 450 390 0 1 0).get ⟨k, hk⟩).revenue_weekly = 0 ∧
       ((projCore 0 450 390 0 1 0).get ⟨k, hk⟩).profit_weekly = 0 ∧
       ((projCore 0 450 390 0 1 0).get ⟨k, hk⟩).cumulative_profit = 0) := by
  have hwo0 : ∀ j : ℕ, weekOrders 0 0 j = 0 := by
    intro j
    unfold weekOrders monthVolume
    ring
  have hfc0 : fixedCostsWeeklyOf 0 = 0 := by
    unfold fixedCostsWeeklyOf
    simp
  have hwp0 : ∀ j : ℕ, weekProfit 0 450 390 0 0 j = 0 := by
    intro j
    unfold weekProfit weekProfitOf
    rw [hwo0 j, hfc0]
    ring
  refine ⟨by decide, by decide, by decide,
    generate_projections_valid 0 450 390 0 1 0 (le_refl 0) (le_refl 1), ?_⟩
  intro k hk
  rw [projCore_get 0 450 390 0 1 0 k hk]
  refine ⟨?_, ?_, ?_⟩
  · show roundTo 2 (weekOrders 0 0 k * 450) = 0
    rw [hwo0 k, zero_mul, roundTo_zero]
  · show roundTo 2 (weekProfitOf (weekOrders 0 0 k) 450 390 (fixedCostsWeeklyOf 0)) = 0
    have : weekProfitOf (weekOrders 0 0 k) 450 390 (fixedCostsWeeklyOf 0) =
        weekProfit 0 450 390 0 0 k := rfl
    rw [this, hwp0 k, roundTo_zero]
  · show roundTo 2 (∑ j ∈ Finset.range (k + 1), weekProfit 0 450 390 0 0 j) = 0
    rw [Finset.sum_congr rfl (fun j _ => hwp0 j), Finset.sum_const, smul_zero,
        roundTo_zero]

/- If index `idx` is the first position of `l` satisfying `p`, then
   `find?` returns the element at `idx`. -/
lemma find?_eq_of_first {α : Type} (p : α → Bool) :
    ∀ (l : List α) (idx : ℕ) (hidx : idx < l.length),
      p (l.get ⟨idx, hidx⟩) = true →
      (∀ j (hj : j < idx), p (l.get ⟨j, Nat.lt_trans hj hidx⟩) = false) →
      l.find? p = some (l.get ⟨idx, hidx⟩) := by
  intro l
  induction l with
  | nil =>
    intro idx hidx
    exact absurd hidx (by simp)
  | cons a l ih =>
    intro idx hidx hp hprev
    cases idx with
    | zero =>
      exact List.find?_cons_of_pos l hp
    | succ idx' =>
      have ha : p a = false := hprev 0 (Nat.succ_pos idx')
      rw [List.find?_cons_of_neg l (by rw [ha]; exact Bool.false_ne_true)]
      have hidx' : idx' < l.length := Nat.lt_of_succ_lt_succ hidx
      have hp' : p (l.get ⟨idx', hidx'⟩) = true := hp
      have hprev' : ∀ j (hj : j < idx'),
          p (l.get ⟨j, Nat.lt_trans hj hidx'⟩) = false := by
        intro j hj
        exact hprev (j + 1) (Nat.succ_lt_succ hj)
      exact ih idx' hidx' hp' hprev'

/-- C8: for every non-empty row sequence, `find_time_to_positive_profit`
returns the Global_Week and Month of the first row (in sequence/week
order) whose cumulative profit is ≥ 0 together with the "Reached" status,
and when no row has cumulative profit ≥ 0 it returns the "Not Reached"
status as a normal result. -/
theorem c8_first_nonneg_scan (rows : List ProjectionRow) (hne : rows ≠ []) :
    ((∀ r ∈ rows, r.cumulative_profit < 0) →
      find_time_to_positive_profit rows = (none, none, some "Not Reached")) ∧
    (∀ idx (hidx : idx < rows.length),
      0 ≤ (rows.get ⟨idx, hidx⟩).cumulative_profit →
      (∀ j (hj : j < idx), (rows.get ⟨j, Nat.lt_trans hj hidx⟩).cumulative_profit < 0) →
      find_time_to_positive_profit rows =
        (some (rows.get ⟨idx, hidx⟩).global_week,
         some (rows.get ⟨idx, hidx⟩).month, some "Reached")) := by
  have hemp : rows.isEmpty = false := by
    cases rows with
    | nil => exact absurd rfl hne
    | cons a l => rfl
  constructor
  · intro hall
    unfold find_time_to_positive_profit
    rw [hemp, if_neg Bool.false_ne_true]
    have hfind : rows.find? (fun r => decide (0 ≤ r.cumulative_profit)) = none := by
      rw [List.find?_eq_none]
      intro r hr
      simp only [decide_eq_true_eq, not_le]
      exact hall r hr
    rw [hfind]
  · intro idx hidx h0 hprev
    unfold find_time_to_positive_profit
    rw [hemp, if_neg Bool.false_ne_true]
    have hfind := find?_eq_of_first (fun r => decide (0 ≤ r.cumulative_profit)) rows
      idx hidx (decide_eq_true h0)
      (fun j hj => decide_eq_false (not_le.mpr (hprev j hj)))
    rw [hfind]

theorem c8_first_nonneg_scan_witness :
    ([(⟨1, 1, 0, 0, 0, 0, 0, -5⟩ : ProjectionRow), ⟨1, 2, 0, 0, 0, 0, 0, 3⟩] ≠
      ([] : List ProjectionRow)) ∧
    find_time_to_positive_profit
      [⟨1, 1, 0, 0, 0, 0, 0, -5⟩, ⟨1, 2, 0, 0, 0, 0, 0, 3⟩] =
      (some 2, some 1, some "Reached") :=
  ⟨by decide,
    (c8_first_nonneg_scan
      [⟨1, 1, 0, 0, 0, 0, 0, -5⟩, ⟨1, 2, 0, 0, 0, 0, 0, 3⟩] (by decide)).2
      1 (by decide) (by decide)
      (by
        intro j hj
        have hj0 : j = 0 := by omega
        subst hj0
        show (-5 : ℚ) < 0
        decide)⟩

end ProfitCalc
